import Mathlib

/-!
Verification of the Take2 multimodal screening core against its code.

The fusion engine lives in `src/frontend/src/pages/Results.tsx`
(`calculateOverallRisk`), the blink detector is specified by the
pseudocode in `src/frontend/BLINK_DETECTION_ALGORITHM.md`, the typing
test client (WebSocket protocol and accuracy metric) lives in
`src/unnamed/part_000` (`TypingTest`).  Numeric code is embedded over `ℚ`.
-/

namespace Take2

/-! ### Fusion engine (Results.tsx) -/

/-- Band assignment from `calculateOverallRisk` (Results.tsx lines 107-115):
`<0.3 → low`, `<0.5 → moderate`, `<0.7 → elevated`, else `high`. -/
def riskBand (r : ℚ) : String :=
  if r < 3/10 then "low"
  else if r < 1/2 then "moderate"
  else if r < 7/10 then "elevated"
  else "high"

/-- The voice `risk_assessment` object parsed from the LLM response in
Results.tsx; `calculateOverallRisk` reads only `overall_risk_score`,
the `confidence` field is present in the data but never read by fusion. -/
structure RiskAssessment where
  overall_risk_score : Option ℚ
  confidence : Option ℚ
deriving DecidableEq

/-- The `risks` array built in `calculateOverallRisk` (Results.tsx lines
72-101): the typing `score_0to1` is pushed if defined, then the parsed
voice `overall_risk_score` if defined.  The blink modality is never pushed
(the Results page renders it as "Coming soon"). -/
def fusionRisks (typingScore : Option ℚ) (voice : Option RiskAssessment) : List ℚ :=
  typingScore.toList ++ (voice.bind RiskAssessment.overall_risk_score).toList

/-- `risks.reduce((a, b) => a + b, 0) / risks.length` (Results.tsx line 104). -/
def fuseRisks (risks : List ℚ) : ℚ :=
  risks.foldl (· + ·) 0 / (risks.length : ℚ)

/-- Initial component state `(overallRisk, riskCategory)` from the
`useState` initialisers (Results.tsx lines 25-26). -/
def initialRiskState : ℚ × String := (0, "unknown")

/-- `calculateOverallRisk` (Results.tsx lines 71-117): build the `risks`
array, and only when it is non-empty set `overallRisk` to the plain average
and `riskCategory` to its band; otherwise the previous state is kept. -/
def calculateOverallRisk (typingScore : Option ℚ) (voice : Option RiskAssessment)
    (prev : ℚ × String) : ℚ × String :=
  let risks := fusionRisks typingScore voice
  if 0 < risks.length then
    let avgRisk := fuseRisks risks
    (avgRisk, riskBand avgRisk)
  else prev

/-! ### Fusion as the specification words it -/

/-- Spec's `ModalityScore`: a `[0,1]` value with a `[0,1]` confidence. -/
structure ModalityScore where
  value : ℚ
  confidence : ℚ
deriving DecidableEq

/-- Modelled from the spec (§4.5): `overallRisk` as the confidence-weighted
mean `Σ(value·confidence) / Σ(confidence)`, undefined (`none`, reported as
`unknown`) if all confidences are 0 or no modality has reported.  Kept
separate from `calculateOverallRisk`, which is the code's fusion. -/
def specOverallRisk (scores : List ModalityScore) : Option ℚ :=
  let den := (scores.map ModalityScore.confidence).sum
  if den = 0 then none
  else some ((scores.map fun s => s.value * s.confidence).sum / den)

/-! ### Blink risk (BLINK_DETECTION_ALGORITHM.md) -/

/-- Blink rate in blinks per minute: `blink_count / duration_seconds * 60`
(BLINK_DETECTION_ALGORITHM.md, "Risk score calculated as (20 - blink_rate) / 15"
together with the blink summary fields; spec §4.1 `BlinkSummary`). -/
def blinkRatePerMinute (blinkCount durationSeconds : ℚ) : ℚ :=
  blinkCount / durationSeconds * 60

/-- `blinkRisk = max(0.0, min(1.0, (20 - blinkRate) / 15))`
(BLINK_DETECTION_ALGORITHM.md, Risk Calculation, line 101). -/
def blinkRisk (blinkRate : ℚ) : ℚ :=
  max 0 (min 1 ((20 - blinkRate) / 15))

/-! ### Blink state machine (BLINK_DETECTION_ALGORITHM.md, Blink Detection
Logic, lines 36-61; same algorithm in src/unnamed/part_003 lines 14-24) -/

/-- `EAR_THRESHOLD`: below this the eye counts as closed. -/
def EAR_THRESHOLD : ℚ := 1/4

/-- `CONSEC_FRAMES`: closed-frame run length required before the opening
edge counts as a blink. -/
def CONSEC_FRAMES : ℕ := 2

/-- Mutable detector state: `consecutive_closed_frames` and the running
blink count. -/
structure BlinkState where
  consecutiveClosedFrames : ℕ
  blinkCount : ℕ
deriving DecidableEq

def initBlinkState : BlinkState := ⟨0, 0⟩

/-- One iteration of the per-frame loop (doc lines 44-50): if
`avgEAR < EAR_THRESHOLD`, increment `consecutive_closed_frames`; otherwise
count a blink when `consecutive_closed_frames ≥ CONSEC_FRAMES` and reset the
counter to 0 regardless.  The boolean is whether a blink was counted at this
frame. -/
def processFrame (s : BlinkState) (avgEAR : ℚ) : BlinkState × Bool :=
  if avgEAR < EAR_THRESHOLD then
    (⟨s.consecutiveClosedFrames + 1, s.blinkCount⟩, false)
  else if CONSEC_FRAMES ≤ s.consecutiveClosedFrames then
    (⟨0, s.blinkCount + 1⟩, true)
  else
    (⟨0, s.blinkCount⟩, false)

/-- Run the detector over a finite sequence of per-frame average EAR values. -/
def runBlink (s : BlinkState) : List ℚ → BlinkState
  | [] => s
  | e :: rest => runBlink (processFrame s e).1 rest

/-- The per-sample emission flags of a run of the detector. -/
def blinkEmitsFrom (s : BlinkState) : List ℚ → List Bool
  | [] => []
  | e :: rest => (processFrame s e).2 :: blinkEmitsFrom (processFrame s e).1 rest

/-- Emission flags of a full session starting from the initial state. -/
def blinkEmits (samples : List ℚ) : List Bool :=
  blinkEmitsFrom initBlinkState samples

/-- Number of trailing below-threshold samples of a sequence. -/
def trailingClosed (l : List ℚ) : ℕ :=
  (l.reverse.takeWhile fun e => decide (e < EAR_THRESHOLD)).length

/-! ### Keystroke channel termination (src/unnamed/part_000, TypingTest) -/

/-- The ready states of the browser WebSocket channel. `opened` stands for
`WebSocket.OPEN`, `closedState` for `WebSocket.CLOSED`. -/
inductive ReadyState
  | connecting
  | opened
  | closing
  | closedState
deriving DecidableEq

/-- The browser `WebSocket.send` as observed by the client (WHATWG WebSocket
semantics, the external channel the TypingTest code talks to): sending on a
CONNECTING channel throws `InvalidStateError`; on an OPEN channel the frame
is transmitted; on a CLOSING or CLOSED channel the call is silently ignored.
The value is the list of frames actually put on the wire. -/
def wsSend (rs : ReadyState) (msg : String) : Except String (List String) :=
  match rs with
  | .connecting => .error "InvalidStateError"
  | .opened => .ok [msg]
  | .closing => .ok []
  | .closedState => .ok []

/-- The effect cleanup run on unmount (part_000 lines 73-78):
`if (ws.readyState === WebSocket.OPEN) ws.send({type: "end"})`. -/
def cleanupEndSends (rs : ReadyState) : Except String (List String) :=
  if rs = ReadyState.opened then wsSend rs "end" else Except.ok []

/-- The timer-expiry handler (part_000 lines 84-98): when the countdown
reaches zero, `if (wsRef.current && wsRef.current.readyState ===
WebSocket.OPEN) wsRef.current.send({type: "end"})`; the ref may be null. -/
def timerEndSends (ws : Option ReadyState) : Except String (List String) :=
  match ws with
  | none => Except.ok []
  | some rs => if rs = ReadyState.opened then wsSend rs "end" else Except.ok []

/-! ### Typing test accuracy metric (src/unnamed/part_000, lines 116-133) -/

/-- The fixed reference text of the typing test (part_000 line 6). -/
def SAMPLE_TEXT : String := "The early morning sun cast long shadows across the quiet street as people began their daily routines. Coffee shops opened their doors, releasing the rich aroma of freshly brewed espresso into the crisp air. Commuters hurried past, their footsteps echoing on the pavement while they checked their phones and sipped their drinks. In the park, joggers followed their familiar paths, weaving between dog walkers and early cyclists. The city was waking up, transforming from its peaceful nighttime slumber into the bustling hub of activity it would remain throughout the day. Each person moved with purpose, contributing to the complex choreography of urban life that played out every morning in cities around the world."

/-- Correct characters of one typed word: positions `j < typedWord.length`
with `typedWord[j] === word[j]`.  A JS index past the reference word's end
compares against `undefined` and never counts, which the `zip` truncation
captures. -/
def countCorrectChars (typedWord word : String) : ℕ :=
  ((typedWord.toList.zip word.toList).filter fun p => p.1 == p.2).length

/-- `totalChars` of the accuracy loop: for each typed-word index whose
reference word exists and is truthy (non-empty), add the reference word's
length. -/
def totalChars (typedWords words : List String) : ℕ :=
  ((typedWords.zip words).map fun p =>
    if p.2.isEmpty then 0 else p.2.length).sum

/-- `correctChars` of the accuracy loop, summed over the same pairs. -/
def correctChars (typedWords words : List String) : ℕ :=
  ((typedWords.zip words).map fun p =>
    if p.2.isEmpty then 0 else countCorrectChars p.1 p.2).sum

/-- The accuracy effect (part_000 lines 116-133): recompute the counters over
`input.trim().split(" ")` against `SAMPLE_TEXT.split(" ")` and set
`accuracy = Math.round(correctChars / totalChars * 100)` only when
`totalChars > 0`; otherwise the previous accuracy (initially 100) is kept.
`Math.round x = ⌊x + 1/2⌋` is `round` on `ℚ`. -/
def accuracyUpdate (input : String) (prevAccuracy : ℤ) : ℤ :=
  if 0 < totalChars (input.trim.splitOn " ") (SAMPLE_TEXT.splitOn " ") then
    round ((correctChars (input.trim.splitOn " ") (SAMPLE_TEXT.splitOn " ") : ℚ) /
      (totalChars (input.trim.splitOn " ") (SAMPLE_TEXT.splitOn " ") : ℚ) * 100)
  else prevAccuracy

/-! ### Helper lemmas about the fusion fold -/

theorem foldl_add_eq_sum (l : List ℚ) (a : ℚ) : l.foldl (· + ·) a = a + l.sum := by
  induction l generalizing a with
  | nil => simp
  | cons x xs ih => simp [List.foldl_cons, ih, List.sum_cons]; ring

theorem fuseRisks_eq_sum_div (l : List ℚ) : fuseRisks l = l.sum / l.length := by
  simp [fuseRisks, foldl_add_eq_sum]

theorem sum_map_one (l : List ℚ) : (l.map fun _ => (1 : ℚ)).sum = l.length := by
  induction l with
  | nil => simp
  | cons x xs ih =>
      rw [List.map_cons, List.sum_cons, ih, List.length_cons]
      push_cast
      ring

/-! ### Helper lemmas about the blink state machine -/

theorem runBlink_append (s : BlinkState) (l : List ℚ) (e : ℚ) :
    runBlink s (l ++ [e]) = (processFrame (runBlink s l) e).1 := by
  induction l generalizing s with
  | nil => rfl
  | cons x xs ih =>
      rw [List.cons_append]
      show runBlink (processFrame s x).1 (xs ++ [e])
        = (processFrame (runBlink (processFrame s x).1 xs) e).1
      exact ih _

theorem trailingClosed_append (l : List ℚ) (e : ℚ) :
    trailingClosed (l ++ [e]) =
      if e < EAR_THRESHOLD then trailingClosed l + 1 else 0 := by
  unfold trailingClosed
  rw [List.reverse_append]
  simp only [List.reverse_singleton, List.singleton_append, List.takeWhile_cons]
  split_ifs with h <;> simp_all

theorem len_takeWhile_le (p : ℚ → Bool) (l : List ℚ) :
    (l.takeWhile p).length ≤ l.length := by
  induction l with
  | nil => simp
  | cons x xs ih =>
      rw [List.takeWhile_cons]
      split_ifs
      · simp
        omega
      · simp

theorem trailingClosed_le (l : List ℚ) : trailingClosed l ≤ l.length := by
  have h := len_takeWhile_le (fun e => decide (e < EAR_THRESHOLD)) l.reverse
  simpa [trailingClosed] using h

theorem runBlink_consec (l : List ℚ) :
    (runBlink initBlinkState l).consecutiveClosedFrames = trailingClosed l := by
  induction l using List.reverseRecOn with
  | nil => rfl
  | append_singleton l e ih =>
      rw [runBlink_append, trailingClosed_append]
      unfold processFrame
      split_ifs with h h2 <;> simp [ih]

theorem blinkEmitsFrom_getD (l : List ℚ) :
    ∀ (s : BlinkState) (i : ℕ), i < l.length →
      (blinkEmitsFrom s l).getD i false =
        (processFrame (runBlink s (l.take i)) (l.getD i 0)).2 := by
  induction l with
  | nil =>
      intro s i hi
      simp at hi
  | cons e rest ih =>
      intro s i hi
      cases i with
      | zero => rfl
      | succ j =>
          have hj : j < rest.length := by simpa using hi
          simp only [blinkEmitsFrom, List.getD_cons_succ, List.take_succ_cons]
          rw [ih _ j hj]
          rfl

theorem getD_take (l : List ℚ) (i j : ℕ) (h : j < i) :
    (l.take i).getD j 0 = l.getD j 0 := by
  rcases lt_or_le j l.length with hl | hl
  · rw [List.getD_eq_getElem?_getD, List.getD_eq_getElem?_getD,
      List.getElem?_take, if_pos h]
  · rw [List.getD_eq_getElem?_getD, List.getD_eq_getElem?_getD,
      List.getElem?_eq_none hl, List.getElem?_eq_none (by simp; omega)]

theorem one_le_trailing_iff (l : List ℚ) :
    1 ≤ trailingClosed l ↔
      1 ≤ l.length ∧ l.getD (l.length - 1) 0 < EAR_THRESHOLD := by
  induction l using List.reverseRecOn with
  | nil => simp [trailingClosed]
  | append_singleton l e ih =>
      rw [trailingClosed_append]
      have hget : (l ++ [e]).getD ((l ++ [e]).length - 1) 0 = e := by
        rw [List.getD_eq_getElem?_getD]
        simp
      split_ifs with h
      · constructor
        · intro _
          refine ⟨by simp, ?_⟩
          rw [hget]
          exact h
        · intro _
          omega
      · constructor
        · intro h'
          exact absurd h' (by omega)
        · rintro ⟨-, hb⟩
          rw [hget] at hb
          exact absurd hb h

theorem two_le_trailing_iff (l : List ℚ) :
    2 ≤ trailingClosed l ↔
      2 ≤ l.length ∧ l.getD (l.length - 1) 0 < EAR_THRESHOLD ∧
        l.getD (l.length - 2) 0 < EAR_THRESHOLD := by
  induction l using List.reverseRecOn with
  | nil => simp [trailingClosed]
  | append_singleton l e ih =>
      rw [trailingClosed_append]
      have hget : (l ++ [e]).getD ((l ++ [e]).length - 1) 0 = e := by
        rw [List.getD_eq_getElem?_getD]
        simp
      rcases Nat.eq_zero_or_pos l.length with hl | hl
      · have hnil : l = [] := List.length_eq_zero.mp hl
        subst hnil
        split_ifs with h <;> simp [trailingClosed, h]
      · have hprev : (l ++ [e]).getD ((l ++ [e]).length - 2) 0 =
            l.getD (l.length - 1) 0 := by
          rw [List.getD_eq_getElem?_getD, List.getD_eq_getElem?_getD,
            List.length_append]
          have : l.length + 1 - 2 = l.length - 1 := by omega
          rw [List.length_singleton, this,
            List.getElem?_append_left (by omega)]
        split_ifs with h
        · rw [hget, hprev]
          have h1 := one_le_trailing_iff l
          simp only [List.length_append, List.length_singleton]
          constructor
          · intro h2
            have : 1 ≤ trailingClosed l := by omega
            rcases h1.mp this with ⟨ha, hb⟩
            exact ⟨by omega, h, hb⟩
          · rintro ⟨ha, _, hb⟩
            have : 1 ≤ trailingClosed l := h1.mpr ⟨by omega, hb⟩
            omega
        · rw [hget]
          simp [h]

end Take2

namespace Take2

/-! ### Claim theorems about the fusion engine -/

/-- Claim C2: the band assigned to `overallRisk` is `low` iff `r < 0.3`, `moderate`
iff `0.3 ≤ r < 0.5`, `elevated` iff `0.5 ≤ r < 0.7`, `high` iff `r ≥ 0.7`;
in particular exactly 0.3 is `moderate` and exactly 0.7 is `high`. -/
theorem risk_band_thresholds (r : ℚ) :
    (riskBand r = "low" ↔ r < 3/10) ∧
    (riskBand r = "moderate" ↔ 3/10 ≤ r ∧ r < 1/2) ∧
    (riskBand r = "elevated" ↔ 1/2 ≤ r ∧ r < 7/10) ∧
    (riskBand r = "high" ↔ 7/10 ≤ r) ∧
    riskBand (3/10) = "moderate" ∧ riskBand (7/10) = "high" := by
  have e1 : riskBand (3/10) = "moderate" := by norm_num [riskBand]
  have e2 : riskBand (7/10) = "high" := by norm_num [riskBand]
  rcases lt_or_le r (3/10) with h1 | h1
  · have hb : riskBand r = "low" := by rw [riskBand, if_pos h1]
    exact ⟨iff_of_true hb h1,
      iff_of_false (by simp [hb]) (by rintro ⟨h2, _⟩; linarith),
      iff_of_false (by simp [hb]) (by rintro ⟨h2, _⟩; linarith),
      iff_of_false (by simp [hb]) (by intro h2; linarith), e1, e2⟩
  rcases lt_or_le r (1/2) with h2 | h2
  · have hb : riskBand r = "moderate" := by
      rw [riskBand, if_neg (not_lt.mpr h1), if_pos h2]
    exact ⟨iff_of_false (by simp [hb]) (by intro h3; linarith),
      iff_of_true hb ⟨h1, h2⟩,
      iff_of_false (by simp [hb]) (by rintro ⟨h3, _⟩; linarith),
      iff_of_false (by simp [hb]) (by intro h3; linarith), e1, e2⟩
  rcases lt_or_le r (7/10) with h3 | h3
  · have hb : riskBand r = "elevated" := by
      rw [riskBand, if_neg (not_lt.mpr h1), if_neg (not_lt.mpr h2), if_pos h3]
    exact ⟨iff_of_false (by simp [hb]) (by intro h4; linarith),
      iff_of_false (by simp [hb]) (by rintro ⟨_, h4⟩; linarith),
      iff_of_true hb ⟨h2, h3⟩,
      iff_of_false (by simp [hb]) (by intro h4; linarith), e1, e2⟩
  · have hb : riskBand r = "high" := by
      rw [riskBand, if_neg (not_lt.mpr h1), if_neg (not_lt.mpr h2),
        if_neg (not_lt.mpr h3)]
    exact ⟨iff_of_false (by simp [hb]) (by intro h4; linarith),
      iff_of_false (by simp [hb]) (by rintro ⟨_, h4⟩; linarith),
      iff_of_false (by simp [hb]) (by rintro ⟨_, h4⟩; linarith),
      iff_of_true hb h3, e1, e2⟩

/-- Claim C1 counterexample: the code's fusion is not the confidence-weighted mean.
With typing score 0.6 (confidence 1 per the spec's typing default) and a
reported voice score 0 at confidence 0.5, the weighted mean Σ(v·c)/Σ(c) is
0.4, but `calculateOverallRisk` ignores the confidence field and returns the
plain average 0.3. -/
theorem weighted_mean_cx :
    specOverallRisk [⟨3/5, 1⟩, ⟨0, 1/2⟩] = some (2/5) ∧
    (calculateOverallRisk (some (3/5)) (some ⟨some 0, some (1/2)⟩)
        initialRiskState).1 = 3/10 ∧
    ((3 : ℚ)/10 ≠ 2/5) := by
  norm_num [specOverallRisk, calculateOverallRisk, fusionRisks, fuseRisks,
    initialRiskState]

/-- Claim C1 amended: for every non-empty set of reported modality scores,
`overallRisk` equals the confidence-weighted mean computed as if every
reported modality had confidence 1 — i.e. the unweighted mean of the reported
typing and voice values; the confidence fields are ignored by the code. -/
theorem fusion_mean_confidences_ignored (t : Option ℚ) (v : Option RiskAssessment)
    (h : fusionRisks t v ≠ []) :
    specOverallRisk ((fusionRisks t v).map fun x => ⟨x, 1⟩) =
      some ((calculateOverallRisk t v initialRiskState).1) := by
  have hlen : 0 < (fusionRisks t v).length := List.length_pos.mpr h
  have hden : (((fusionRisks t v).map fun x => (⟨x, 1⟩ : ModalityScore)).map
      ModalityScore.confidence).sum = ((fusionRisks t v).length : ℚ) := by
    rw [List.map_map]
    exact sum_map_one _
  have hnum : (((fusionRisks t v).map fun x => (⟨x, 1⟩ : ModalityScore)).map
      fun s => s.value * s.confidence).sum = (fusionRisks t v).sum := by
    have hc : ((fun s : ModalityScore => s.value * s.confidence) ∘
        fun x : ℚ => (⟨x, 1⟩ : ModalityScore)) = fun x : ℚ => x := by
      funext x
      simp
    rw [List.map_map, hc]
    simp
  unfold specOverallRisk calculateOverallRisk
  rw [hden, hnum, if_neg (by exact_mod_cast hlen.ne'), if_pos hlen]
  simp [fuseRisks_eq_sum_div]

/-- Witness for C1's amended theorem at a concrete reported typing score. -/
theorem fusion_mean_confidences_ignored_witness :
    fusionRisks (some (1/2)) none ≠ [] ∧
      specOverallRisk ((fusionRisks (some (1/2)) none).map fun x => ⟨x, 1⟩) =
        some ((calculateOverallRisk (some (1/2)) none initialRiskState).1) :=
  ⟨by simp [fusionRisks], fusion_mean_confidences_ignored _ _ (by simp [fusionRisks])⟩

/-- Claim C5 counterexample: a reported modality with confidence 0 is still coerced
to a numeric band.  A voice score 0.5 at confidence 0 makes the spec's fusion
undefined (`unknown`), but the code reports the band `elevated`. -/
theorem zero_confidence_banded_cx :
    specOverallRisk [⟨1/2, 0⟩] = none ∧
    (calculateOverallRisk none (some ⟨some (1/2), some 0⟩)
        initialRiskState).2 = "elevated" ∧
    "elevated" ≠ "unknown" := by
  refine ⟨?_, ?_, by decide⟩ <;>
    norm_num [specOverallRisk, calculateOverallRisk, fusionRisks, fuseRisks,
      riskBand, initialRiskState]

/-- Claim C5 amended: when no modality has reported a score, `calculateOverallRisk`
leaves the state untouched, so the risk category stays the non-numeric value
`"unknown"`; confidences however are ignored, so a reported score with
confidence 0 is still banded. -/
theorem no_reported_modality_stays_unknown (t : Option ℚ) (v : Option RiskAssessment)
    (h : fusionRisks t v = []) :
    calculateOverallRisk t v initialRiskState = initialRiskState ∧
      (calculateOverallRisk t v initialRiskState).2 = "unknown" := by
  have hfix : calculateOverallRisk t v initialRiskState = initialRiskState := by
    unfold calculateOverallRisk
    rw [h]
    simp
  exact ⟨hfix, by rw [hfix]; rfl⟩

/-- Witness for C5's amended theorem: the fully-unreported session. -/
theorem no_reported_modality_stays_unknown_witness :
    fusionRisks none none = [] ∧
      (calculateOverallRisk none none initialRiskState = initialRiskState ∧
        (calculateOverallRisk none none initialRiskState).2 = "unknown") :=
  ⟨rfl, no_reported_modality_stays_unknown none none rfl⟩

/-- Claim C6 evaluation: in the end-to-end scenario (20 blinks over 60 s, typing
score 0.1, voice risk 0.2 at confidence 1.0), the documented blink formula
gives blink risk 0.0, but `calculateOverallRisk` never reads blink data:
it averages typing and voice only, yielding 0.15 — not the claimed 0.1 —
though the band is still `low`. -/
theorem blink_excluded_scenario :
    blinkRisk (blinkRatePerMinute 20 60) = 0 ∧
    calculateOverallRisk (some (1/10)) (some ⟨some (1/5), some 1⟩)
        initialRiskState = (3/20, "low") ∧
    ((3 : ℚ)/20 ≠ 1/10) := by
  norm_num [blinkRisk, blinkRatePerMinute, calculateOverallRisk, fusionRisks,
    fuseRisks, riskBand, initialRiskState]

/-- Claim C7: when exactly one modality has reported (at confidence 1.0), fusion
returns exactly that modality's value; in particular a session with only a
voice score of 0.8 yields `overallRisk = 0.8` and band `high`. -/
theorem single_modality_exact :
    (∀ t : ℚ, calculateOverallRisk (some t) none initialRiskState
        = (t, riskBand t)) ∧
    (∀ v : ℚ, calculateOverallRisk none (some ⟨some v, some 1⟩) initialRiskState
        = (v, riskBand v)) ∧
    calculateOverallRisk none (some ⟨some (4/5), some 1⟩) initialRiskState
        = (4/5, "high") := by
  refine ⟨fun t => ?_, fun v => ?_,
    by norm_num [calculateOverallRisk, fusionRisks, fuseRisks, riskBand]⟩ <;>
    simp [calculateOverallRisk, fusionRisks, fuseRisks]

/-- Claim C8: fusion is order-independent — permuting the list of risk values fed
to the code's reduce/length average leaves `overallRisk` unchanged. -/
theorem fusion_perm_invariant (l l' : List ℚ) (h : l.Perm l') :
    fuseRisks l = fuseRisks l' := by
  rw [fuseRisks_eq_sum_div, fuseRisks_eq_sum_div, h.sum_eq, h.length_eq]

/-! ### Claim theorems about the blink detector -/

theorem processFrame_snd_iff (st : BlinkState) (e : ℚ) :
    (processFrame st e).2 = true ↔
      ¬ e < EAR_THRESHOLD ∧ CONSEC_FRAMES ≤ st.consecutiveClosedFrames := by
  unfold processFrame
  split_ifs with h h2
  · simp [h]
  · simp [h, h2]
  · simp [h, h2]

/-- Claim C3: with `EAR_THRESHOLD = 0.25` and `CONSEC_FRAMES = 2`, a blink is
emitted at sample `i` iff that sample is at or above threshold and the two
immediately preceding samples (a below-threshold run of length ≥ 2 ending at
`i − 1`) are below threshold; a below-threshold run of exactly 1 sample never
emits; and the closed-frame counter resets to 0 on every at-or-above sample. -/
theorem blink_emission_iff (samples : List ℚ) (i : ℕ) (hi : i < samples.length) :
    ((blinkEmits samples).getD i false = true ↔
      EAR_THRESHOLD ≤ samples.getD i 0 ∧ 2 ≤ i ∧
        samples.getD (i - 1) 0 < EAR_THRESHOLD ∧
        samples.getD (i - 2) 0 < EAR_THRESHOLD) ∧
    ((samples.getD (i - 1) 0 < EAR_THRESHOLD ∧
        (i ≤ 1 ∨ EAR_THRESHOLD ≤ samples.getD (i - 2) 0)) →
      (blinkEmits samples).getD i false = false) ∧
    (∀ (s : BlinkState) (e : ℚ), EAR_THRESHOLD ≤ e →
      (processFrame s e).1.consecutiveClosedFrames = 0) := by
  have hlen : (samples.take i).length = i := by
    rw [List.length_take]
    omega
  have hbase : (blinkEmits samples).getD i false = true ↔
      ¬ samples.getD i 0 < EAR_THRESHOLD ∧
        2 ≤ trailingClosed (samples.take i) := by
    unfold blinkEmits
    rw [blinkEmitsFrom_getD samples initBlinkState i hi, processFrame_snd_iff,
      runBlink_consec]
    rfl
  have htr := two_le_trailing_iff (samples.take i)
  rw [hlen] at htr
  have hiff : (blinkEmits samples).getD i false = true ↔
      EAR_THRESHOLD ≤ samples.getD i 0 ∧ 2 ≤ i ∧
        samples.getD (i - 1) 0 < EAR_THRESHOLD ∧
        samples.getD (i - 2) 0 < EAR_THRESHOLD := by
    rcases lt_or_le i 2 with hi2 | hi2
    · refine iff_of_false (fun he => ?_) (by rintro ⟨-, h2, -, -⟩; omega)
      have h2t := (hbase.mp he).2
      have hle := trailingClosed_le (samples.take i)
      omega
    · have e1 : (samples.take i).getD (i - 1) 0 = samples.getD (i - 1) 0 :=
        getD_take _ _ _ (by omega)
      have e2 : (samples.take i).getD (i - 2) 0 = samples.getD (i - 2) 0 :=
        getD_take _ _ _ (by omega)
      rw [e1, e2] at htr
      constructor
      · intro he
        obtain ⟨hnl, h2t⟩ := hbase.mp he
        obtain ⟨-, ha, hb⟩ := htr.mp h2t
        exact ⟨not_lt.mp hnl, hi2, ha, hb⟩
      · rintro ⟨hge, -, ha, hb⟩
        exact hbase.mpr ⟨not_lt.mpr hge, htr.mpr ⟨hi2, ha, hb⟩⟩
  refine ⟨hiff, ?_, ?_⟩
  · rintro ⟨hprev, hcase⟩
    cases hb : (blinkEmits samples).getD i false with
    | false => rfl
    | true =>
        exfalso
        obtain ⟨-, h2i, -, hb2⟩ := hiff.mp hb
        rcases hcase with hle | hge
        · omega
        · exact absurd hb2 (not_lt.mpr hge)
  · intro s e he
    unfold processFrame
    rw [if_neg (not_lt.mpr he)]
    split_ifs <;> rfl

/-- Witness for C3: in the EAR trace `[0.1, 0.1, 0.3]` the sample at index 2
reopens the eye after a 2-frame closed run, so a blink is emitted there. -/
theorem blink_emission_iff_witness :
    (2 < ([1/10, 1/10, 3/10] : List ℚ).length) ∧
      (((blinkEmits [1/10, 1/10, 3/10]).getD 2 false = true ↔
        EAR_THRESHOLD ≤ ([1/10, 1/10, 3/10] : List ℚ).getD 2 0 ∧ 2 ≤ 2 ∧
          ([1/10, 1/10, 3/10] : List ℚ).getD 1 0 < EAR_THRESHOLD ∧
          ([1/10, 1/10, 3/10] : List ℚ).getD 0 0 < EAR_THRESHOLD) ∧
       ((([1/10, 1/10, 3/10] : List ℚ).getD 1 0 < EAR_THRESHOLD ∧
          (2 ≤ 1 ∨ EAR_THRESHOLD ≤ ([1/10, 1/10, 3/10] : List ℚ).getD 0 0)) →
        (blinkEmits [1/10, 1/10, 3/10]).getD 2 false = false) ∧
       (∀ (s : BlinkState) (e : ℚ), EAR_THRESHOLD ≤ e →
        (processFrame s e).1.consecutiveClosedFrames = 0)) :=
  ⟨by simp, blink_emission_iff [1/10, 1/10, 3/10] 2 (by simp)⟩

/-- Claim C4: for every non-negative blink rate the risk `clamp01((20 − r)/15)` is
0 for `r ≥ 20`, 1 for `r ≤ 5`, the linear value `(20 − r)/15` in between,
and always lies in `[0, 1]`. -/
theorem blink_risk_clamped (r : ℚ) (_h : 0 ≤ r) :
    (0 ≤ blinkRisk r ∧ blinkRisk r ≤ 1) ∧
    (20 ≤ r → blinkRisk r = 0) ∧
    (r ≤ 5 → blinkRisk r = 1) ∧
    (5 ≤ r → r ≤ 20 → blinkRisk r = (20 - r) / 15) := by
  unfold blinkRisk
  refine ⟨⟨le_max_left _ _, max_le (by norm_num) (min_le_left _ _)⟩, ?_, ?_, ?_⟩
  · intro h20
    rw [min_eq_right (by linarith), max_eq_left (by linarith)]
  · intro h5
    rw [min_eq_left (by linarith), max_eq_right (by norm_num)]
  · intro h5 h20
    rw [min_eq_right (by linarith), max_eq_right (by linarith)]

/-- Witness for C4 at the above-normal rate 25 blinks/min. -/
theorem blink_risk_clamped_witness :
    (0 ≤ (25 : ℚ)) ∧
      ((0 ≤ blinkRisk 25 ∧ blinkRisk 25 ≤ 1) ∧
       (20 ≤ (25 : ℚ) → blinkRisk 25 = 0) ∧
       ((25 : ℚ) ≤ 5 → blinkRisk 25 = 1) ∧
       (5 ≤ (25 : ℚ) → (25 : ℚ) ≤ 20 → blinkRisk 25 = (20 - 25) / 15)) :=
  ⟨by norm_num, blink_risk_clamped 25 (by norm_num)⟩

/-- Witness for C8 at a concrete transposition of two scores. -/
theorem fusion_perm_invariant_witness :
    ([1/2, 1/4] : List ℚ).Perm [1/4, 1/2] ∧
      fuseRisks [1/2, 1/4] = fuseRisks [1/4, 1/2] :=
  ⟨List.Perm.swap (1/4) (1/2) [],
    fusion_perm_invariant _ _ (List.Perm.swap (1/4) (1/2) [])⟩

/-! ### Claim theorems about the keystroke client and typing metric -/

/-- Claim C9: on unmount and on timer expiry the client performs at most one guarded
`end` send; the send happens (exactly one `end` frame) iff the channel is OPEN
at that moment, and in every other state — error states included — nothing is
sent and no exception is raised (the result is never `Except.error`). -/
theorem end_send_termination :
    (∀ rs : ReadyState, ∃ sent : List String,
        cleanupEndSends rs = Except.ok sent ∧ sent.length ≤ 1) ∧
    (∀ rs : ReadyState,
        cleanupEndSends rs = Except.ok ["end"] ↔ rs = ReadyState.opened) ∧
    (∀ rs : ReadyState, rs ≠ ReadyState.opened →
        cleanupEndSends rs = Except.ok []) ∧
    (∀ ws : Option ReadyState, ∃ sent : List String,
        timerEndSends ws = Except.ok sent ∧ sent.length ≤ 1) ∧
    (∀ ws : Option ReadyState,
        timerEndSends ws = Except.ok ["end"] ↔ ws = some ReadyState.opened) := by
  refine ⟨?_, ?_, ?_, ?_, ?_⟩
  · intro rs
    cases rs
    · exact ⟨[], rfl, by simp⟩
    · exact ⟨["end"], rfl, by simp⟩
    · exact ⟨[], rfl, by simp⟩
    · exact ⟨[], rfl, by simp⟩
  · intro rs
    cases rs <;> simp [cleanupEndSends, wsSend]
  · intro rs hne
    cases rs <;> simp_all [cleanupEndSends, wsSend]
  · intro ws
    rcases ws with - | rs
    · exact ⟨[], rfl, by simp⟩
    · cases rs
      · exact ⟨[], rfl, by simp⟩
      · exact ⟨["end"], rfl, by simp⟩
      · exact ⟨[], rfl, by simp⟩
      · exact ⟨[], rfl, by simp⟩
  · intro ws
    rcases ws with - | rs
    · simp [timerEndSends]
    · cases rs <;> simp [timerEndSends, wsSend]

theorem countCorrectChars_le (t w : String) :
    countCorrectChars t w ≤ min t.length w.length := by
  unfold countCorrectChars
  have h1 := List.length_filter_le (fun p : Char × Char => p.1 == p.2)
    (t.toList.zip w.toList)
  have h2 : (t.toList.zip w.toList).length = min t.length w.length := by
    rw [List.length_zip]
    rfl
  omega

theorem correctChars_le_totalChars (typedWords words : List String) :
    correctChars typedWords words ≤ totalChars typedWords words := by
  unfold correctChars totalChars
  apply List.sum_le_sum
  intro p _
  split_ifs with h
  · exact le_refl 0
  · exact le_trans (countCorrectChars_le p.1 p.2) (min_le_right _ _)

/-- Claim C10: for every typed input against the fixed sample text the accuracy is
an integer in `[0, 100]`; typed characters beyond the reference word's length
(and mismatches) never count, so `correctChars ≤ totalChars`; and when no
reference characters are covered the accuracy keeps its initial value 100. -/
theorem typing_accuracy_bounds (input : String) :
    correctChars (input.trim.splitOn " ") (SAMPLE_TEXT.splitOn " ")
        ≤ totalChars (input.trim.splitOn " ") (SAMPLE_TEXT.splitOn " ") ∧
    (∀ t w : String, countCorrectChars t w ≤ min t.length w.length) ∧
    0 ≤ accuracyUpdate input 100 ∧ accuracyUpdate input 100 ≤ 100 ∧
    (totalChars (input.trim.splitOn " ") (SAMPLE_TEXT.splitOn " ") = 0 →
      accuracyUpdate input 100 = 100) := by
  refine ⟨correctChars_le_totalChars _ _, countCorrectChars_le, ?_, ?_, ?_⟩
  · unfold accuracyUpdate
    split_ifs with htot
    · have hq0 : (0 : ℚ) ≤
          (correctChars (input.trim.splitOn " ") (SAMPLE_TEXT.splitOn " ") : ℚ) /
            (totalChars (input.trim.splitOn " ") (SAMPLE_TEXT.splitOn " ") : ℚ) * 100 := by
        positivity
      rw [round_eq]
      exact Int.le_floor.mpr (by push_cast; linarith)
    · norm_num
  · unfold accuracyUpdate
    split_ifs with htot
    · have hle := correctChars_le_totalChars
        (input.trim.splitOn " ") (SAMPLE_TEXT.splitOn " ")
      have htp : (0 : ℚ) <
          (totalChars (input.trim.splitOn " ") (SAMPLE_TEXT.splitOn " ") : ℚ) := by
        exact_mod_cast htot
      have hq1 :
          (correctChars (input.trim.splitOn " ") (SAMPLE_TEXT.splitOn " ") : ℚ) /
            (totalChars (input.trim.splitOn " ") (SAMPLE_TEXT.splitOn " ") : ℚ) ≤ 1 := by
        rw [div_le_one htp]
        exact_mod_cast hle
      rw [round_eq]
      rw [Int.floor_le_iff]
      push_cast
      nlinarith
    · norm_num
  · intro h0
    unfold accuracyUpdate
    rw [if_neg (by omega)]

end Take2
